import Mathlib

/-!
Verification of the blackjack rules engine in src/rust-blackjack.rs.

The Rust `BlackjackApp` struct and its methods are shallowly embedded below:
`Vec<Card>` becomes `List Card` with `Vec::push` appending at the end and
`Vec::pop` removing the last element (`vecPop`); `usize` becomes `Nat`
(every subtraction in the source is guarded by a `>=` test, so `Nat`
subtraction agrees with the `usize` arithmetic); `.unwrap()` on an `Option`
that can be `None` is modelled by an `Option`-returning function whose
`none` result stands for the Rust panic.  `rand::shuffle` is external to
the repository: a shuffled deck is modelled as an arbitrary permutation of
`create_deck`, supplied as a parameter to `new_round`.
-/

set_option maxRecDepth 8000

namespace Blackjack

/-- Card suits, from the `Suit` enum in the source. -/
inductive Suit where
  | Hearts
  | Diamonds
  | Clubs
  | Spades
deriving DecidableEq, Repr

/-- Card ranks, from the `Value` enum in the source; `Number n` covers 2-10. -/
inductive Value where
  | Number (n : Nat)
  | Jack
  | Queen
  | King
  | Ace
deriving DecidableEq, Repr

/-- A playing card, from the `Card` struct in the source. -/
structure Card where
  value : Value
  suit : Suit
deriving DecidableEq, Repr

/-- The `Card::value` method: base point value of a card (Ace nominally 11). -/
def cardValue (c : Card) : Nat :=
  match c.value with
  | Value.Number num => num
  | Value.Jack => 10
  | Value.Queen => 10
  | Value.King => 10
  | Value.Ace => 11

/-- The `GameState` enum in the source. -/
inductive GameState where
  | Betting
  | PlayerTurn
  | DealerTurn
  | GameOver (msg : String)
deriving DecidableEq, Repr

/-- The `BlackjackApp` struct in the source: deck, hands, bets, bankroll, phase. -/
structure BlackjackApp where
  deck : List Card
  player_hands : List (List Card)
  dealer_hand : List Card
  current_hand : Nat
  game_state : GameState
  player_bets : List Nat
  total_money : Nat
deriving DecidableEq, Repr

/-- `Vec::pop`: removes and returns the last element, `none` on an empty vector. -/
def vecPop {α : Type} : List α → Option (α × List α)
  | [] => none
  | [x] => some (x, [])
  | x :: y :: rest =>
    match vecPop (y :: rest) with
    | some (z, zs) => some (z, x :: zs)
    | none => none

/-- The first accumulation loop of `calculate_hand_value`: one pass over the hand
collecting the non-Ace point total and the number of Aces. -/
def chvStep (p : Nat × Nat) (c : Card) : Nat × Nat :=
  match c.value with
  | Value.Ace => (p.1, p.2 + 1)
  | _ => (p.1 + cardValue c, p.2)

/-- The second loop of `calculate_hand_value`: `for _ in 0..aces`, adding 1 when
`value + 11 > 21` and 11 otherwise. -/
def addAces (v : Nat) : Nat → Nat
  | 0 => v
  | n + 1 => addAces (if v + 11 > 21 then v + 1 else v + 11) n

/-- `BlackjackApp::calculate_hand_value` from the source. -/
def calculate_hand_value (hand : List Card) : Nat :=
  addAces (hand.foldl chvStep (0, 0)).1 (hand.foldl chvStep (0, 0)).2

/-- `BlackjackApp::can_split`: exactly two cards of equal base point value. -/
def can_split (hand : List Card) : Bool :=
  match hand with
  | [first_card, second_card] => cardValue first_card == cardValue second_card
  | _ => false

/-- The settlement loop of `evaluate_game_outcomes`: iterates over the player
hands with their index, appending to the summary message and crediting the
bankroll.  The first `> 21` test inside the non-bust branch reproduces the dead
`hand_value > 21` disjunct of the source's `Lost` condition. -/
def settle (dv : Nat) (db : Bool) (bets : List Nat) :
    List (List Card) → Nat → String → Nat → String × Nat
  | [], _, msg, money => (msg, money)
  | hand :: rest, index, msg, money =>
    if calculate_hand_value hand > 21 then
      settle dv db bets rest (index + 1)
        (msg ++ "Hand " ++ toString (index + 1) ++ " Busted. ") money
    else if calculate_hand_value hand > 21 ∨ (db = false ∧ dv > calculate_hand_value hand) then
      settle dv db bets rest (index + 1)
        (msg ++ "Hand " ++ toString (index + 1) ++ " Lost. ") money
    else if db = true ∨ calculate_hand_value hand > dv then
      settle dv db bets rest (index + 1)
        (msg ++ "Hand " ++ toString (index + 1) ++ " Won! ")
        (money + bets.getD index 0 * 2)
    else if calculate_hand_value hand = dv then
      settle dv db bets rest (index + 1)
        (msg ++ "Hand " ++ toString (index + 1) ++ " Push. ")
        (money + bets.getD index 0)
    else
      settle dv db bets rest (index + 1) msg money

/-- `BlackjackApp::evaluate_game_outcomes` from the source.  `player_bets[index]`
is modelled with `getD`; in every state the engine reaches, `player_bets` is at
least as long as `player_hands`, matching the panic-free Rust indexing. -/
def evaluate_game_outcomes (s : BlackjackApp) : BlackjackApp :=
  let dealer_value := calculate_hand_value s.dealer_hand
  let dealer_bust : Bool := decide (dealer_value > 21)
  let r := settle dealer_value dealer_bust s.player_bets s.player_hands 0 "Round Over: " s.total_money
  { s with total_money := r.2, game_state := GameState.GameOver r.1 }

/-- The drawing loop of `dealer_turn`: draw while the dealer's score is below 17,
stopping when the deck is empty.  Each iteration removes one card from the deck,
so `deck.length` is enough fuel to run the loop to its exit condition. -/
def dealerDraw : Nat → List Card → List Card → List Card × List Card
  | 0, dh, deck => (dh, deck)
  | fuel + 1, dh, deck =>
    if calculate_hand_value dh < 17 then
      match vecPop deck with
      | some (card, deck') => dealerDraw fuel (dh ++ [card]) deck'
      | none => (dh, deck)
    else (dh, deck)

/-- `BlackjackApp::dealer_turn` from the source: dealer draws to 17, then the
round is settled. -/
def dealer_turn (s : BlackjackApp) : BlackjackApp :=
  let r := dealerDraw s.deck.length s.dealer_hand s.deck
  evaluate_game_outcomes { s with dealer_hand := r.1, deck := r.2 }

/-- `BlackjackApp::stand` from the source: advance to the next hand if one
exists, otherwise enter `DealerTurn` and run the dealer's turn. -/
def stand (s : BlackjackApp) : BlackjackApp :=
  if s.current_hand + 1 < s.player_hands.length then
    { s with current_hand := s.current_hand + 1 }
  else
    dealer_turn { s with game_state := GameState.DealerTurn }

/-- `BlackjackApp::hit` from the source: pop the top deck card onto the active
hand; on an empty deck only a diagnostic is printed, the state is unchanged.
`player_hands[current_hand]` is modelled with `getD`/`set`; the index is in
bounds in every state the engine reaches. -/
def hit (s : BlackjackApp) : BlackjackApp :=
  match vecPop s.deck with
  | some (card, deck') =>
    let hand := s.player_hands.getD s.current_hand [] ++ [card]
    let s' := { s with deck := deck', player_hands := s.player_hands.set s.current_hand hand }
    if calculate_hand_value hand > 21 then stand s' else s'
  | none => s

/-- `BlackjackApp::double_down` from the source.  Note that the post-hit
`<= 21` test reads `player_hands[self.current_hand]` after `hit` may already
have advanced `current_hand` through a bust-triggered `stand`. -/
def double_down (s : BlackjackApp) : BlackjackApp :=
  if s.player_bets.getD s.current_hand 0 ≤ s.total_money then
    let bet := s.player_bets.getD s.current_hand 0
    let s1 := { s with total_money := s.total_money - bet,
                       player_bets := s.player_bets.set s.current_hand (bet * 2) }
    let s2 := hit s1
    if calculate_hand_value (s2.player_hands.getD s2.current_hand []) ≤ 21 then
      stand s2
    else s2
  else s

/-- Placeholder card used for a list access that is guarded by `can_split`
(the hand is then known to have exactly two cards, so the access never
falls back to this default). -/
def defaultCard : Card := { value := Value.Ace, suit := Suit.Spades }

/-- `BlackjackApp::split` from the source.  The two `self.deck.pop().unwrap()`
calls are modelled by `vecPop`; a `none` result stands for the Rust panic on a
depleted deck. -/
def split (s : BlackjackApp) : Option BlackjackApp :=
  if can_split (s.player_hands.getD s.current_hand []) = false ∨
      s.total_money < s.player_bets.getD s.current_hand 0 then some s
  else
    match vecPop s.deck with
    | none => none
    | some (c1, d1) =>
      match vecPop d1 with
      | none => none
      | some (c2, d2) =>
        some { s with
          total_money := s.total_money - s.player_bets.getD s.current_hand 0,
          player_bets := s.player_bets ++ [s.player_bets.getD s.current_hand 0],
          player_hands :=
            (s.player_hands.set s.current_hand
              ((s.player_hands.getD s.current_hand []).dropLast ++ [c1]))
              ++ [[(s.player_hands.getD s.current_hand []).getD 1 defaultCard, c2]],
          deck := d2 }

/-- `BlackjackApp::create_deck` from the source: 4 suits times 13 ranks, in
suit-major order. -/
def create_deck : List Card :=
  [Suit.Hearts, Suit.Diamonds, Suit.Clubs, Suit.Spades].flatMap fun suit =>
    [Value.Number 2, Value.Number 3, Value.Number 4, Value.Number 5, Value.Number 6,
     Value.Number 7, Value.Number 8, Value.Number 9, Value.Number 10,
     Value.Jack, Value.Queen, Value.King, Value.Ace].map fun value =>
      { value := value, suit := suit }

/-- `BlackjackApp::new_round` from the source: install the freshly shuffled
deck, deal two cards to a single player hand and two to the dealer, reset the
active-hand index and enter `PlayerTurn`.  `player_bets` and `total_money` are
not touched, exactly as in the source.  The four `.unwrap()`s are modelled by
`vecPop`; they cannot fail on a 52-card shuffle. -/
def new_round (shuffled : List Card) (s : BlackjackApp) : Option BlackjackApp :=
  match vecPop shuffled with
  | none => none
  | some (p1, d1) =>
    match vecPop d1 with
    | none => none
    | some (p2, d2) =>
      match vecPop d2 with
      | none => none
      | some (q1, d3) =>
        match vecPop d3 with
        | none => none
        | some (q2, d4) =>
          some { s with
            deck := d4,
            player_hands := [[p1, p2]],
            dealer_hand := [q1, q2],
            current_hand := 0,
            game_state := GameState.PlayerTurn }

/-- The field values `BlackjackApp::new` sets up before it calls `new_round`. -/
def initApp : BlackjackApp :=
  { deck := [],
    player_hands := [[]],
    dealer_hand := [],
    current_hand := 0,
    game_state := GameState.Betting,
    player_bets := [10],
    total_money := 100 }

/-- Whether a phase is the terminal `GameOver` phase. -/
def isGameOver : GameState → Bool
  | GameState.GameOver _ => true
  | _ => false

/-- One user-triggered engine call.  `renewA` carries the permutation of the
fresh deck produced by the shuffle. -/
inductive Act where
  | hitA
  | standA
  | doubleA
  | splitA
  | renewA (d : List Card)

/-- Apply one action the way the presentation layer does: `hit`, `stand`,
`double_down` and `split` only during `PlayerTurn`, `new_round` only from
`Betting` or `GameOver` (the Bet / Play Again buttons), with the new deck a
permutation of a fresh 52-card deck.  `none` marks an out-of-phase call or a
panic inside the engine. -/
def applyAct (a : Act) (s : BlackjackApp) : Option BlackjackApp :=
  match a with
  | Act.hitA => if s.game_state = GameState.PlayerTurn then some (hit s) else none
  | Act.standA => if s.game_state = GameState.PlayerTurn then some (stand s) else none
  | Act.doubleA => if s.game_state = GameState.PlayerTurn then some (double_down s) else none
  | Act.splitA => if s.game_state = GameState.PlayerTurn then split s else none
  | Act.renewA d =>
    if (s.game_state = GameState.Betting ∨ isGameOver s.game_state = true) ∧ d.Perm create_deck then
      new_round d s
    else none

/-- Run a list of actions, stopping with `none` at the first refused call. -/
def runLegal (s : BlackjackApp) : List Act → Option BlackjackApp
  | [] => some s
  | a :: rest =>
    match applyAct a s with
    | some s' => runLegal s' rest
    | none => none

/-- Engine states reachable through the program's own call discipline:
`BlackjackApp::new` runs `new_round` on a shuffled deck, and afterwards each
action is invoked only in the phase in which the UI offers it. -/
inductive Reachable : BlackjackApp → Prop where
  | start : ∀ (d : List Card) (s : BlackjackApp),
      d.Perm create_deck → new_round d initApp = some s → Reachable s
  | step : ∀ (a : Act) (s s' : BlackjackApp),
      Reachable s → applyAct a s = some s' → Reachable s'

theorem runLegal_reachable : ∀ (acts : List Act) (s s' : BlackjackApp),
    Reachable s → runLegal s acts = some s' → Reachable s'
  | [], s, s', hs, h => by
    simp only [runLegal, Option.some_inj] at h
    exact h ▸ hs
  | a :: rest, s, s', hs, h => by
    simp only [runLegal] at h
    cases ha : applyAct a s with
    | none => rw [ha] at h; exact absurd h (by simp)
    | some s1 =>
      rw [ha] at h
      exact runLegal_reachable rest s1 s' (Reachable.step a s s1 hs ha) h

/-- Whether a card is an Ace. -/
def isAce (c : Card) : Bool :=
  match c.value with
  | Value.Ace => true
  | _ => false

/-- Stated from the spec: the sum of the base point values of all non-Ace
cards of a hand. -/
def baseSum (hand : List Card) : Nat :=
  ((hand.filter fun c => !(isAce c)).map cardValue).sum

/-- The number of Aces held in a hand. -/
def aceCount (hand : List Card) : Nat :=
  (hand.filter isAce).length

/-- Stated from the spec's scoring rule: sum the base point values of all
non-Ace cards; then for each Ace, in order, add 11 if doing so keeps the
running total at most 21, else add 1. -/
def specHandValue (hand : List Card) : Nat :=
  (hand.filter isAce).foldl (fun v _ => if v + 11 ≤ 21 then v + 11 else v + 1) (baseSum hand)

/-- Stated from the spec: the total of a hand under an explicit assignment of
1 or 11 to each Ace, the choices consumed in encounter order (`true` means the
Ace counts 11); a missing choice counts the Ace as 1. -/
def assignTotal : List Card → List Bool → Nat
  | [], _ => 0
  | c :: rest, ch =>
    if isAce c then (if ch.headD false then 11 else 1) + assignTotal rest ch.tail
    else cardValue c + assignTotal rest ch

theorem baseSum_cons_ace (c : Card) (t : List Card) (hc : isAce c = true) :
    baseSum (c :: t) = baseSum t := by
  simp [baseSum, hc]

theorem baseSum_cons_nonace (c : Card) (t : List Card) (hc : isAce c = false) :
    baseSum (c :: t) = cardValue c + baseSum t := by
  simp [baseSum, hc]

theorem aceCount_cons_ace (c : Card) (t : List Card) (hc : isAce c = true) :
    aceCount (c :: t) = aceCount t + 1 := by
  simp [aceCount, hc]

theorem aceCount_cons_nonace (c : Card) (t : List Card) (hc : isAce c = false) :
    aceCount (c :: t) = aceCount t := by
  simp [aceCount, hc]

theorem chv_go (hand : List Card) : ∀ (v a : Nat),
    hand.foldl chvStep (v, a) = (v + baseSum hand, a + aceCount hand) := by
  induction hand with
  | nil => intro v a; simp [baseSum, aceCount]
  | cons c t ih =>
    intro v a
    by_cases hc : isAce c = true
    · have hs : chvStep (v, a) c = (v, a + 1) := by
        obtain ⟨cv, cs⟩ := c
        cases cv <;> simp_all [chvStep, isAce]
      rw [List.foldl_cons, hs, ih, baseSum_cons_ace c t hc, aceCount_cons_ace c t hc]
      simp only [Prod.mk.injEq, true_and]
      omega
    · rw [Bool.not_eq_true] at hc
      have hs : chvStep (v, a) c = (v + cardValue c, a) := by
        obtain ⟨cv, cs⟩ := c
        cases cv <;> simp_all [chvStep, isAce]
      rw [List.foldl_cons, hs, ih, baseSum_cons_nonace c t hc, aceCount_cons_nonace c t hc]
      simp only [Prod.mk.injEq, and_true]
      omega

theorem chvPass_eq (hand : List Card) :
    hand.foldl chvStep (0, 0) = (baseSum hand, aceCount hand) := by
  rw [chv_go hand 0 0]
  simp

theorem addAces_ge : ∀ (n v : Nat), 11 ≤ v → addAces v n = v + n := by
  intro n
  induction n with
  | zero => intro v _; rfl
  | succ m ih =>
    intro v hv
    have h21 : v + 11 > 21 := by omega
    simp only [addAces, if_pos h21]
    rw [ih (v + 1) (by omega)]
    omega

theorem addAces_closed (n v : Nat) :
    addAces v n = if n = 0 then v else if v ≤ 10 then v + 10 + n else v + n := by
  cases n with
  | zero => simp [addAces]
  | succ m =>
    by_cases hv : v ≤ 10
    · have h21 : ¬ v + 11 > 21 := by omega
      simp only [addAces, if_neg h21]
      rw [addAces_ge m (v + 11) (by omega)]
      simp [hv]
      omega
    · have h21 : v + 11 > 21 := by omega
      simp only [addAces, if_pos h21]
      rw [addAces_ge m (v + 1) (by omega)]
      simp [hv]
      omega

theorem specFold (l : List Card) : ∀ (v : Nat),
    l.foldl (fun v _ => if v + 11 ≤ 21 then v + 11 else v + 1) v = addAces v l.length := by
  induction l with
  | nil => intro v; rfl
  | cons c t ih =>
    intro v
    simp only [List.foldl_cons, List.length_cons, addAces]
    by_cases h : v + 11 ≤ 21
    · rw [if_pos h, if_neg (by omega), ih]
    · rw [if_neg h, if_pos (by omega), ih]

theorem chv_eq_addAces (hand : List Card) :
    calculate_hand_value hand = addAces (baseSum hand) (aceCount hand) := by
  unfold calculate_hand_value
  rw [chvPass_eq]

theorem chv_closed (hand : List Card) :
    calculate_hand_value hand =
      if aceCount hand = 0 then baseSum hand
      else if baseSum hand ≤ 10 then baseSum hand + 10 + aceCount hand
      else baseSum hand + aceCount hand := by
  rw [chv_eq_addAces, addAces_closed]

theorem assignTotal_cons_ace (c : Card) (t : List Card) (ch : List Bool)
    (hc : isAce c = true) :
    assignTotal (c :: t) ch = (if ch.headD false then 11 else 1) + assignTotal t ch.tail := by
  simp [assignTotal, hc]

theorem assignTotal_cons_nonace (c : Card) (t : List Card) (ch : List Bool)
    (hc : isAce c = false) :
    assignTotal (c :: t) ch = cardValue c + assignTotal t ch := by
  simp [assignTotal, hc]

theorem assignTotal_decomp (hand : List Card) : ∀ (ch : List Bool),
    ∃ k, k ≤ aceCount hand ∧ assignTotal hand ch = baseSum hand + aceCount hand + 10 * k := by
  induction hand with
  | nil => intro ch; exact ⟨0, by simp [aceCount, baseSum, assignTotal]⟩
  | cons c t ih =>
    intro ch
    by_cases hc : isAce c = true
    · obtain ⟨k, hk, he⟩ := ih ch.tail
      rw [← Bool.not_eq_false] at hc
      by_cases hh : ch.headD false = true
      · refine ⟨k + 1, ?_, ?_⟩
        · rw [aceCount_cons_ace c t (by simpa using hc)]; omega
        · rw [assignTotal_cons_ace c t ch (by simpa using hc), hh, if_pos rfl, he,
            baseSum_cons_ace c t (by simpa using hc), aceCount_cons_ace c t (by simpa using hc)]
          omega
      · rw [Bool.not_eq_true] at hh
        refine ⟨k, ?_, ?_⟩
        · rw [aceCount_cons_ace c t (by simpa using hc)]; omega
        · rw [assignTotal_cons_ace c t ch (by simpa using hc), hh, if_neg (by simp), he,
            baseSum_cons_ace c t (by simpa using hc), aceCount_cons_ace c t (by simpa using hc)]
          omega
    · rw [Bool.not_eq_true] at hc
      obtain ⟨k, hk, he⟩ := ih ch
      refine ⟨k, ?_, ?_⟩
      · rw [aceCount_cons_nonace c t hc]; omega
      · rw [assignTotal_cons_nonace c t ch hc, he, baseSum_cons_nonace c t hc,
          aceCount_cons_nonace c t hc]
        omega

theorem assignTotal_false (hand : List Card) : ∀ (ch : List Bool),
    (∀ b ∈ ch, b = false) → assignTotal hand ch = baseSum hand + aceCount hand := by
  induction hand with
  | nil => intro ch _; simp [assignTotal, baseSum, aceCount]
  | cons c t ih =>
    intro ch hch
    by_cases hc : isAce c = true
    · have hh : ch.headD false = false := by
        cases ch with
        | nil => rfl
        | cons b r => exact hch b (by simp)
      have ht : ∀ b ∈ ch.tail, b = false := fun b hb => hch b (List.mem_of_mem_tail hb)
      rw [assignTotal_cons_ace c t ch hc, hh, if_neg (by simp), ih ch.tail ht,
        baseSum_cons_ace c t hc, aceCount_cons_ace c t hc]
      omega
    · rw [Bool.not_eq_true] at hc
      rw [assignTotal_cons_nonace c t ch hc, ih ch hch, baseSum_cons_nonace c t hc,
        aceCount_cons_nonace c t hc]
      omega

theorem assignTotal_first (hand : List Card) : ∀ (ch : List Bool),
    1 ≤ aceCount hand → ch.headD false = true → (∀ b ∈ ch.tail, b = false) →
    assignTotal hand ch = baseSum hand + aceCount hand + 10 := by
  induction hand with
  | nil => intro ch h1 _ _; simp [aceCount] at h1
  | cons c t ih =>
    intro ch h1 hh ht
    by_cases hc : isAce c = true
    · rw [assignTotal_cons_ace c t ch hc, hh, if_pos rfl, assignTotal_false t ch.tail ht,
        baseSum_cons_ace c t hc, aceCount_cons_ace c t hc]
      omega
    · rw [Bool.not_eq_true] at hc
      have h1t : 1 ≤ aceCount t := by
        rw [aceCount_cons_nonace c t hc] at h1; exact h1
      rw [assignTotal_cons_nonace c t ch hc, ih ch h1t hh ht, baseSum_cons_nonace c t hc,
        aceCount_cons_nonace c t hc]
      omega

/-- Stated from the spec's settlement rule: the bankroll credit for one hand,
judged independently: busted hands forfeit, a win pays twice the hand's bet, a
push returns the bet, a loss pays nothing. -/
def handPayout (db : Bool) (dv hv bet : Nat) : Nat :=
  if hv > 21 then 0
  else if db = true ∨ hv > dv then bet * 2
  else if hv = dv then bet
  else 0

/-- Stated from the spec's settlement rule: the summary fragment reported for
one hand, judged independently and in hand order. -/
def handOutcome (db : Bool) (dv hv : Nat) (index : Nat) : String :=
  if hv > 21 then "Hand " ++ toString (index + 1) ++ " Busted. "
  else if db = true ∨ hv > dv then "Hand " ++ toString (index + 1) ++ " Won! "
  else if hv = dv then "Hand " ++ toString (index + 1) ++ " Push. "
  else "Hand " ++ toString (index + 1) ++ " Lost. "

/-- Concatenation of a list of message fragments. -/
def strJoin : List String → String
  | [] => ""
  | a :: rest => a ++ strJoin rest

theorem settle_eq (dv : Nat) (db : Bool) (bets : List Nat) :
    ∀ (hands : List (List Card)) (index : Nat) (msg : String) (money : Nat),
    settle dv db bets hands index msg money =
      (msg ++ strJoin ((List.enumFrom index hands).map
          fun p => handOutcome db dv (calculate_hand_value p.2) p.1),
       money + ((List.enumFrom index hands).map
          fun p => handPayout db dv (calculate_hand_value p.2) (bets.getD p.1 0)).sum) := by
  intro hands
  induction hands with
  | nil => intro index msg money; simp [settle, strJoin]
  | cons hand rest ih =>
    intro index msg money
    rw [List.enumFrom_cons]
    simp only [List.map_cons, strJoin, List.sum_cons]
    by_cases hA : calculate_hand_value hand > 21
    · rw [settle, if_pos hA, ih]
      rw [handOutcome, if_pos hA, handPayout, if_pos hA]
      simp only [Prod.mk.injEq]
      constructor
      · simp [String.append_assoc]
      · omega
    · by_cases hdb : db = true
      · have hB : ¬(calculate_hand_value hand > 21 ∨
            (db = false ∧ dv > calculate_hand_value hand)) := by
          simp [hdb]; omega
        have hC : db = true ∨ calculate_hand_value hand > dv := Or.inl hdb
        rw [settle, if_neg hA, if_neg hB, if_pos hC, ih]
        rw [handOutcome, if_neg hA, if_pos hC, handPayout, if_neg hA, if_pos hC]
        simp only [Prod.mk.injEq]
        constructor
        · simp [String.append_assoc]
        · omega
      · rw [Bool.not_eq_true] at hdb
        rcases Nat.lt_trichotomy (calculate_hand_value hand) dv with hlt | heq | hgt
        · have hB : calculate_hand_value hand > 21 ∨
              (db = false ∧ dv > calculate_hand_value hand) := Or.inr ⟨hdb, hlt⟩
          have hC : ¬(db = true ∨ calculate_hand_value hand > dv) := by
            simp [hdb]; omega
          have hD : ¬(calculate_hand_value hand = dv) := by omega
          rw [settle, if_neg hA, if_pos hB, ih]
          rw [handOutcome, if_neg hA, if_neg hC, if_neg hD,
            handPayout, if_neg hA, if_neg hC, if_neg hD]
          simp only [Prod.mk.injEq]
          constructor
          · simp [String.append_assoc]
          · omega
        · have hB : ¬(calculate_hand_value hand > 21 ∨
              (db = false ∧ dv > calculate_hand_value hand)) := by
            simp [hdb]; omega
          have hC : ¬(db = true ∨ calculate_hand_value hand > dv) := by
            simp [hdb]; omega
          rw [settle, if_neg hA, if_neg hB, if_neg hC, if_pos heq, ih]
          rw [handOutcome, if_neg hA, if_neg hC, if_pos heq,
            handPayout, if_neg hA, if_neg hC, if_pos heq]
          simp only [Prod.mk.injEq]
          constructor
          · simp [String.append_assoc]
          · omega
        · have hB : ¬(calculate_hand_value hand > 21 ∨
              (db = false ∧ dv > calculate_hand_value hand)) := by
            simp [hdb]; omega
          have hC : db = true ∨ calculate_hand_value hand > dv := Or.inr hgt
          rw [settle, if_neg hA, if_neg hB, if_pos hC, ih]
          rw [handOutcome, if_neg hA, if_pos hC, handPayout, if_neg hA, if_pos hC]
          simp only [Prod.mk.injEq]
          constructor
          · simp [String.append_assoc]
          · omega

theorem vecPop_concat {α : Type} (l : List α) (x : α) :
    vecPop (l ++ [x]) = some (x, l) := by
  induction l with
  | nil => rfl
  | cons a t ih =>
    cases t with
    | nil => simp [vecPop]
    | cons b u =>
      show vecPop (a :: ((b :: u) ++ [x])) = some (x, a :: (b :: u))
      simp only [List.cons_append] at ih ⊢
      rw [vecPop, ih]

theorem vecPop_eq_getLast {α : Type} (l : List α) (h : l ≠ []) :
    vecPop l = some (l.getLast h, l.dropLast) := by
  conv_lhs => rw [← List.dropLast_append_getLast h]
  exact vecPop_concat _ _

theorem getD_set_self {α : Type} : ∀ (l : List α) (i : Nat) (x d : α),
    i < l.length → (l.set i x).getD i d = x := by
  intro l
  induction l with
  | nil => intro i x d h; simp at h
  | cons a t ih =>
    intro i x d h
    cases i with
    | zero => rfl
    | succ j =>
      simp only [List.set_cons_succ, List.getD_cons_succ]
      exact ih j x d (by simpa using h)

theorem evaluate_fields (s : BlackjackApp) :
    (evaluate_game_outcomes s).player_hands = s.player_hands ∧
    (evaluate_game_outcomes s).player_bets = s.player_bets ∧
    (evaluate_game_outcomes s).deck = s.deck ∧
    (evaluate_game_outcomes s).dealer_hand = s.dealer_hand ∧
    (evaluate_game_outcomes s).current_hand = s.current_hand := by
  refine ⟨rfl, rfl, rfl, rfl, rfl⟩

theorem evaluate_money (s : BlackjackApp) :
    (evaluate_game_outcomes s).total_money =
      s.total_money + ((List.enumFrom 0 s.player_hands).map
        fun p => handPayout (decide (calculate_hand_value s.dealer_hand > 21))
          (calculate_hand_value s.dealer_hand) (calculate_hand_value p.2)
          (s.player_bets.getD p.1 0)).sum := by
  show (settle (calculate_hand_value s.dealer_hand)
      (decide (calculate_hand_value s.dealer_hand > 21)) s.player_bets s.player_hands 0
      "Round Over: " s.total_money).2 = _
  rw [settle_eq]

theorem evaluate_money_le (s : BlackjackApp) :
    s.total_money ≤ (evaluate_game_outcomes s).total_money := by
  rw [evaluate_money]
  omega

theorem dealer_turn_money_le (s : BlackjackApp) :
    s.total_money ≤ (dealer_turn s).total_money := by
  have h := evaluate_money_le { s with
    dealer_hand := (dealerDraw s.deck.length s.dealer_hand s.deck).1,
    deck := (dealerDraw s.deck.length s.dealer_hand s.deck).2 }
  exact h

theorem dealer_turn_hands (s : BlackjackApp) :
    (dealer_turn s).player_hands = s.player_hands :=
  (evaluate_fields _).1

theorem dealer_turn_bets (s : BlackjackApp) :
    (dealer_turn s).player_bets = s.player_bets :=
  (evaluate_fields _).2.1

theorem stand_money_le (s : BlackjackApp) :
    s.total_money ≤ (stand s).total_money := by
  unfold stand
  by_cases h : s.current_hand + 1 < s.player_hands.length
  · rw [if_pos h]
  · rw [if_neg h]
    exact dealer_turn_money_le _

theorem stand_hands (s : BlackjackApp) :
    (stand s).player_hands = s.player_hands := by
  unfold stand
  by_cases h : s.current_hand + 1 < s.player_hands.length
  · rw [if_pos h]
  · rw [if_neg h, dealer_turn_hands]

theorem stand_bets (s : BlackjackApp) :
    (stand s).player_bets = s.player_bets := by
  unfold stand
  by_cases h : s.current_hand + 1 < s.player_hands.length
  · rw [if_pos h]
  · rw [if_neg h, dealer_turn_bets]

theorem hit_money_le (s : BlackjackApp) :
    s.total_money ≤ (hit s).total_money := by
  unfold hit
  cases hp : vecPop s.deck with
  | none => exact Nat.le_refl _
  | some p =>
    obtain ⟨card, deck'⟩ := p
    simp only
    by_cases hb : calculate_hand_value (s.player_hands.getD s.current_hand [] ++ [card]) > 21
    · rw [if_pos hb]
      exact stand_money_le { s with deck := deck', player_hands := s.player_hands.set s.current_hand (s.player_hands.getD s.current_hand [] ++ [card]) }
    · rw [if_neg hb]

theorem hit_bets (s : BlackjackApp) :
    (hit s).player_bets = s.player_bets := by
  unfold hit
  cases hp : vecPop s.deck with
  | none => rfl
  | some p =>
    obtain ⟨card, deck'⟩ := p
    simp only
    by_cases hb : calculate_hand_value (s.player_hands.getD s.current_hand [] ++ [card]) > 21
    · rw [if_pos hb, stand_bets]
    · rw [if_neg hb]

/-- A round played only with `hit` and `stand` (`true` stands for `hit`). -/
def runHS : List Bool → BlackjackApp → BlackjackApp
  | [], s => s
  | b :: rest, s => runHS rest (if b then hit s else stand s)

theorem runHS_money_le : ∀ (l : List Bool) (s : BlackjackApp),
    s.total_money ≤ (runHS l s).total_money := by
  intro l
  induction l with
  | nil => intro s; exact Nat.le_refl _
  | cons b rest ih =>
    intro s
    cases b with
    | true => exact Nat.le_trans (hit_money_le s) (ih (hit s))
    | false => exact Nat.le_trans (stand_money_le s) (ih (stand s))

theorem new_round_money (d : List Card) (s s' : BlackjackApp)
    (h : new_round d s = some s') : s'.total_money = s.total_money := by
  unfold new_round at h
  split at h
  · exact absurd h (by simp)
  split at h
  · exact absurd h (by simp)
  split at h
  · exact absurd h (by simp)
  split at h
  · exact absurd h (by simp)
  simp only [Option.some_inj] at h
  rw [← h]

open Value Suit in
/-- The first cards dealt in the "pump" rounds used by the concrete traces:
the player receives two Kings (20) and the dealer a King and a 7 (17). -/
def pumpLead : List Card :=
  [⟨King, Spades⟩, ⟨King, Hearts⟩, ⟨King, Diamonds⟩, ⟨Number 7, Spades⟩]

/-- A full 52-card deck in draw order for a round the player wins by standing:
player 20 against dealer 17. -/
def pumpDraw : List Card :=
  pumpLead ++ create_deck.filter (fun x => !(pumpLead.contains x))

/-- The pump deck as stored in the engine (drawn from the end). -/
def pumpDeck : List Card := pumpDraw.reverse

open Value Suit in
/-- A full 52-card deck in draw order that lets the player, starting with 140
in bankroll, split twelve times and then hit the deck down to a single card
while hand 12 remains the untouched pair Queen-of-Clubs / King-of-Clubs. -/
def killDraw : List Card :=
  [⟨King, Spades⟩, ⟨King, Hearts⟩, ⟨King, Diamonds⟩, ⟨Queen, Diamonds⟩,
   ⟨Number 10, Spades⟩, ⟨Number 2, Spades⟩,
   ⟨Number 10, Hearts⟩, ⟨Number 2, Hearts⟩,
   ⟨Number 10, Diamonds⟩, ⟨Number 2, Diamonds⟩,
   ⟨Number 10, Clubs⟩, ⟨Number 2, Clubs⟩,
   ⟨Jack, Spades⟩, ⟨Number 3, Spades⟩,
   ⟨Jack, Hearts⟩, ⟨Number 3, Hearts⟩,
   ⟨Jack, Diamonds⟩, ⟨Number 3, Diamonds⟩,
   ⟨Jack, Clubs⟩, ⟨Number 3, Clubs⟩,
   ⟨Queen, Spades⟩, ⟨Number 4, Spades⟩,
   ⟨Queen, Hearts⟩, ⟨Number 4, Hearts⟩,
   ⟨Queen, Clubs⟩, ⟨Number 4, Diamonds⟩,
   ⟨Number 4, Clubs⟩, ⟨King, Clubs⟩,
   ⟨Number 5, Spades⟩, ⟨Number 9, Spades⟩,
   ⟨Number 5, Hearts⟩, ⟨Number 9, Hearts⟩,
   ⟨Number 5, Diamonds⟩, ⟨Number 9, Diamonds⟩,
   ⟨Number 5, Clubs⟩, ⟨Number 8, Spades⟩,
   ⟨Number 6, Spades⟩, ⟨Number 8, Hearts⟩,
   ⟨Number 6, Hearts⟩, ⟨Number 8, Diamonds⟩,
   ⟨Number 6, Diamonds⟩, ⟨Number 8, Clubs⟩,
   ⟨Number 6, Clubs⟩, ⟨Number 7, Spades⟩,
   ⟨Number 7, Hearts⟩, ⟨Number 7, Diamonds⟩,
   ⟨Ace, Spades⟩, ⟨Ace, Hearts⟩,
   ⟨Number 7, Clubs⟩, ⟨Ace, Diamonds⟩, ⟨Ace, Clubs⟩,
   ⟨Number 9, Clubs⟩]

/-- The draining deck as stored in the engine. -/
def killDeck : List Card := killDraw.reverse

/-- The state `BlackjackApp::new` plus the constructor's `new_round` reaches
with the pump deck as the first shuffle. -/
def round1 : BlackjackApp := (new_round pumpDeck initApp).getD initApp

/-- A phase-legal action sequence: win two pump rounds (bankroll 100 to 140),
then in a third round split twelve times and hit the shoe down to one card,
ending with the untouched pair as the active hand. -/
def killTrace : List Act :=
  [Act.standA, Act.renewA pumpDeck, Act.standA, Act.renewA killDeck]
    ++ List.replicate 12 Act.splitA ++ [Act.standA]
    ++ List.replicate 23 Act.hitA ++ [Act.standA]

/-- The reachable state in which `split` panics: one card left in the shoe,
active hand a Queen/King pair, bankroll 20 with bet 10. -/
def c7_state : BlackjackApp := (runLegal round1 killTrace).getD initApp

open Value Suit in
/-- The first cards of a round in which the player is dealt a pair of 8s and
splits it, each split hand receiving a 2. -/
def c3Lead : List Card :=
  [⟨Number 8, Spades⟩, ⟨Number 8, Hearts⟩, ⟨King, Diamonds⟩, ⟨Number 7, Spades⟩,
   ⟨Number 2, Spades⟩, ⟨Number 2, Hearts⟩]

/-- Deck for the split-then-new-round trace. -/
def c3Deck : List Card :=
  (c3Lead ++ create_deck.filter (fun x => !(c3Lead.contains x))).reverse

/-- The state after splitting a pair of 8s, standing on both hands, and then
starting a new round: one player hand but two stored bets. -/
def c3_state : BlackjackApp :=
  (runLegal ((new_round c3Deck initApp).getD initApp)
    [Act.splitA, Act.standA, Act.standA, Act.renewA pumpDeck]).getD initApp

open Value Suit in
/-- The first cards of a round in which the player splits a pair of 8s into
hand 1 = 8-King (18) and hand 2 = 8-9 (17), and the double-down draw is a 5
(busting hand 1 at 23). -/
def c5Lead : List Card :=
  [⟨Number 8, Spades⟩, ⟨Number 8, Hearts⟩, ⟨King, Diamonds⟩, ⟨Number 7, Spades⟩,
   ⟨King, Spades⟩, ⟨Number 9, Spades⟩, ⟨Number 5, Spades⟩]

/-- Deck for the double-down-after-split trace. -/
def c5Deck : List Card :=
  (c5Lead ++ create_deck.filter (fun x => !(c5Lead.contains x))).reverse

/-- The reachable two-hand state, active hand 0, in which `double_down` busts
hand 0 and then skips hand 1 entirely. -/
def c5_state : BlackjackApp :=
  (runLegal ((new_round c5Deck initApp).getD initApp) [Act.splitA]).getD initApp

/-- A reachable `GameOver` state: the pump round after the player stands. -/
def c6_state : BlackjackApp := (runLegal round1 [Act.standA]).getD initApp

open Value Suit in
/-- A one-card-deck state used to witness the top-card behaviour of `hit`:
the active hand 8-9 (17) busts to 22 on drawing the 5. -/
def w10 : BlackjackApp :=
  { deck := [⟨Number 5, Hearts⟩],
    player_hands := [[⟨Number 8, Spades⟩, ⟨Number 9, Spades⟩]],
    dealer_hand := [],
    current_hand := 0,
    game_state := GameState.PlayerTurn,
    player_bets := [10],
    total_money := 100 }

/-- C1: for every hand, `calculate_hand_value` equals the spec's greedy rule —
sum the base point values of all non-Ace cards, then for each Ace in order add
11 if the running total plus 11 stays at most 21 and otherwise add 1; in
particular a hand of two Aces scores 12. -/
theorem c1_hand_value_matches_greedy_spec :
    (∀ hand : List Card, calculate_hand_value hand = specHandValue hand) ∧
    calculate_hand_value
      [{ value := Value.Ace, suit := Suit.Spades },
       { value := Value.Ace, suit := Suit.Hearts }] = 12 := by
  constructor
  · intro hand
    rw [chv_eq_addAces]
    unfold specHandValue
    rw [specFold]
    rfl
  · decide

open Value Suit in
/-- The hand Ten, Ace, Ace used to refute the maximality claim of C8. -/
def hTenAceAce : List Card :=
  [⟨Number 10, Hearts⟩, ⟨Ace, Spades⟩, ⟨Ace, Hearts⟩]

/-- C8 counterexample: on the hand 10-Ace-Ace the engine scores 22 even though
the all-ones Ace assignment totals 12, which is at most 21 — so `handValue`
does not return the maximal assignment total that is at most 21 whenever one
exists. -/
theorem c8_counterexample :
    calculate_hand_value hTenAceAce = 22 ∧
    assignTotal hTenAceAce [false, false] = 12 ∧
    ¬ calculate_hand_value hTenAceAce ≤ 21 := by
  refine ⟨by decide, by decide, by decide⟩

/-- C8 amended: `handValue` never double-counts an Ace — its result is always
the total of some per-Ace assignment of 1 or 11 — and whenever its result is
at most 21 it is the maximal assignment total that is at most 21; but when an
early Ace is fixed at 11 it can exceed 21 even though an assignment at most 21
exists. -/
theorem c8_amended_hand_value :
    (∀ hand : List Card, ∃ ch : List Bool,
      calculate_hand_value hand = assignTotal hand ch) ∧
    (∀ (hand : List Card) (ch : List Bool),
      calculate_hand_value hand ≤ 21 → assignTotal hand ch ≤ 21 →
      assignTotal hand ch ≤ calculate_hand_value hand) := by
  constructor
  · intro hand
    have hA := assignTotal_false hand [] (by intro b hb; simp at hb)
    by_cases h0 : aceCount hand = 0
    · refine ⟨[], ?_⟩
      rw [hA, chv_closed, if_pos h0, h0]
      omega
    · by_cases h10 : baseSum hand ≤ 10
      · refine ⟨[true], ?_⟩
        rw [assignTotal_first hand [true] (by omega) rfl (by intro b hb; simp at hb),
          chv_closed, if_neg h0, if_pos h10]
        omega
      · refine ⟨[], ?_⟩
        rw [hA, chv_closed, if_neg h0, if_neg h10]
  · intro hand ch h1 h2
    obtain ⟨k, hk, he⟩ := assignTotal_decomp hand ch
    rw [chv_closed] at h1 ⊢
    rw [he] at h2 ⊢
    by_cases h0 : aceCount hand = 0
    · rw [if_pos h0] at h1 ⊢
      omega
    · rw [if_neg h0] at h1 ⊢
      by_cases h10 : baseSum hand ≤ 10
      · rw [if_pos h10] at h1 ⊢
        omega
      · rw [if_neg h10] at h1 ⊢
        omega

open Value Suit in
/-- The hand Ace, 9 used to witness the amended C8 statement. -/
def c8wHand : List Card := [⟨Ace, Spades⟩, ⟨Number 9, Hearts⟩]

/-- Witness for the amended C8 statement at the concrete hand Ace-9. -/
theorem c8_amended_witness :
    (∃ ch : List Bool, calculate_hand_value c8wHand = assignTotal c8wHand ch) ∧
    assignTotal c8wHand [true] ≤ calculate_hand_value c8wHand :=
  ⟨c8_amended_hand_value.1 c8wHand,
   c8_amended_hand_value.2 c8wHand [true] (by decide) (by decide)⟩

/-- C2: at settlement, every player hand is judged independently and in hand
order — a hand over 21 is Busted with no bankroll change; otherwise if the
dealer is over 21 or the hand beats the dealer it is Won and the bankroll
gains twice that hand's bet; an equal score is a Push returning the bet; any
other hand is Lost with no change — and the single combined message listing
every hand's outcome in order is stored in the `GameOver` phase, all other
fields unchanged. -/
theorem c2_settlement_per_hand (s : BlackjackApp) :
    (evaluate_game_outcomes s).total_money =
      s.total_money + ((List.enumFrom 0 s.player_hands).map
        fun p => handPayout (decide (calculate_hand_value s.dealer_hand > 21))
          (calculate_hand_value s.dealer_hand) (calculate_hand_value p.2)
          (s.player_bets.getD p.1 0)).sum ∧
    (evaluate_game_outcomes s).game_state =
      GameState.GameOver ("Round Over: " ++
        strJoin ((List.enumFrom 0 s.player_hands).map
          fun p => handOutcome (decide (calculate_hand_value s.dealer_hand > 21))
            (calculate_hand_value s.dealer_hand) (calculate_hand_value p.2) p.1)) ∧
    (evaluate_game_outcomes s).player_hands = s.player_hands ∧
    (evaluate_game_outcomes s).player_bets = s.player_bets ∧
    (evaluate_game_outcomes s).deck = s.deck ∧
    (evaluate_game_outcomes s).dealer_hand = s.dealer_hand ∧
    (evaluate_game_outcomes s).current_hand = s.current_hand := by
  refine ⟨evaluate_money s, ?_, (evaluate_fields s).1, (evaluate_fields s).2.1,
    (evaluate_fields s).2.2.1, (evaluate_fields s).2.2.2.1, (evaluate_fields s).2.2.2.2⟩
  show GameState.GameOver (settle (calculate_hand_value s.dealer_hand)
      (decide (calculate_hand_value s.dealer_hand > 21)) s.player_bets s.player_hands 0
      "Round Over: " s.total_money).1 = _
  rw [settle_eq]

/-- C4: starting a new round never touches the bankroll — the carried-over bet
is not deducted — and a round played with only `hit` and `stand` (no split or
double-down) can only grow the bankroll. -/
theorem c4_new_round_money_frame :
    (∀ (d : List Card) (s s' : BlackjackApp),
      new_round d s = some s' → s'.total_money = s.total_money) ∧
    (∀ (l : List Bool) (s : BlackjackApp),
      s.total_money ≤ (runHS l s).total_money) :=
  ⟨new_round_money, runHS_money_le⟩

/-- Witness for C4: a concrete new round from the initial state keeps the
bankroll at 100, and a one-hit round does not shrink it. -/
theorem c4_money_witness :
    ((new_round create_deck initApp).getD initApp).total_money = initApp.total_money ∧
    initApp.total_money ≤ (runHS [true] initApp).total_money :=
  ⟨c4_new_round_money_frame.1 create_deck initApp
      ((new_round create_deck initApp).getD initApp) (by rfl),
   c4_new_round_money_frame.2 [true] initApp⟩

/-- C9: on an active two-card hand of equal base point value with the bankroll
covering the hand's bet, `split` deducts exactly one bet unit, appends a
duplicate bet, replaces the active hand's second card with the first fresh
card drawn from the shoe, appends after all existing hands a new two-card hand
of the removed card plus a second fresh card, and leaves the active-hand index
(and every other field) unchanged; when the hand size, value equality, or
funds precondition fails, `split` is a silent no-op. -/
theorem c9_split_effect :
    (∀ (s : BlackjackApp) (a b : Card) (bet : Nat) (c1 c2 : Card) (d1 d2 : List Card),
      s.player_hands.getD s.current_hand [] = [a, b] →
      cardValue a = cardValue b →
      s.player_bets.getD s.current_hand 0 = bet →
      bet ≤ s.total_money →
      vecPop s.deck = some (c1, d1) →
      vecPop d1 = some (c2, d2) →
      split s = some { s with
        total_money := s.total_money - bet,
        player_bets := s.player_bets ++ [bet],
        player_hands := (s.player_hands.set s.current_hand [a, c1]) ++ [[b, c2]],
        deck := d2 }) ∧
    (∀ s : BlackjackApp,
      can_split (s.player_hands.getD s.current_hand []) = false ∨
        s.total_money < s.player_bets.getD s.current_hand 0 →
      split s = some s) := by
  constructor
  · intro s a b bet c1 c2 d1 d2 hh hv hb hm h1 h2
    unfold split
    rw [hh, hb]
    have hcs : can_split [a, b] = true := by
      simp [can_split, hv]
    rw [hcs, if_neg (show ¬(true = false ∨ s.total_money < bet) by simp; omega)]
    simp only [h1, h2]
    rfl
  · intro s h
    unfold split
    rw [if_pos h]

open Value Suit in
/-- A concrete pre-split state: hand 8-8, bet 10, bankroll 100, two cards in
the shoe (a 7 drawn first, then a 5). -/
def c9wState : BlackjackApp :=
  { deck := [⟨Number 5, Hearts⟩, ⟨Number 7, Hearts⟩],
    player_hands := [[⟨Number 8, Spades⟩, ⟨Number 8, Hearts⟩]],
    dealer_hand := [],
    current_hand := 0,
    game_state := GameState.PlayerTurn,
    player_bets := [10],
    total_money := 100 }

open Value Suit in
/-- A concrete refused-split state: hand 8-9 cannot be split. -/
def c9wBad : BlackjackApp :=
  { c9wState with player_hands := [[⟨Number 8, Spades⟩, ⟨Number 9, Hearts⟩]] }

open Value Suit in
/-- Witness for C9: the split of the 8-8 state produces exactly the described
state, and the 8-9 state is left unchanged. -/
theorem c9_split_witness :
    split c9wState = some { c9wState with
      total_money := 90,
      player_bets := [10, 10],
      player_hands := [[⟨Number 8, Spades⟩, ⟨Number 7, Hearts⟩],
                       [⟨Number 8, Hearts⟩, ⟨Number 5, Hearts⟩]],
      deck := [] } ∧
    split c9wBad = some c9wBad := by
  constructor
  · rw [c9_split_effect.1 c9wState ⟨Number 8, Spades⟩ ⟨Number 8, Hearts⟩ 10
      ⟨Number 7, Hearts⟩ ⟨Number 5, Hearts⟩ [⟨Number 5, Hearts⟩] []
      (by decide) (by decide) (by decide) (by decide) (by decide) (by decide)]
    decide
  · exact c9_split_effect.2 c9wBad (Or.inl (by decide))

/-- C10: `hit` in a state with a nonempty shoe draws exactly the top card of
the shoe onto the active hand and, when the new score exceeds 21, advances
exactly as `stand` would; with an empty shoe the draw is refused and the whole
state, phase included, is unchanged. -/
theorem c10_hit_top_card (s : BlackjackApp) :
    (s.deck = [] → hit s = s) ∧
    (∀ h : s.deck ≠ [],
      hit s =
        if calculate_hand_value
            (s.player_hands.getD s.current_hand [] ++ [s.deck.getLast h]) > 21 then
          stand { s with deck := s.deck.dropLast, player_hands := s.player_hands.set s.current_hand (s.player_hands.getD s.current_hand [] ++ [s.deck.getLast h]) }
        else
          { s with deck := s.deck.dropLast, player_hands := s.player_hands.set s.current_hand (s.player_hands.getD s.current_hand [] ++ [s.deck.getLast h]) }) := by
  constructor
  · intro hd
    unfold hit
    rw [hd]
    rfl
  · intro hne
    unfold hit
    rw [vecPop_eq_getLast s.deck hne]

/-- Witness for C10: `hit` on the empty-shoe initial state is the identity,
and on the one-card state `w10` it draws the 5, busts the hand at 22 and runs
the round to its settled end exactly as `stand` would. -/
theorem c10_hit_witness :
    hit initApp = initApp ∧
    hit w10 = { w10 with
      deck := [],
      player_hands := [[{ value := Value.Number 8, suit := Suit.Spades },
                        { value := Value.Number 9, suit := Suit.Spades },
                        { value := Value.Number 5, suit := Suit.Hearts }]],
      game_state := GameState.GameOver "Round Over: Hand 1 Busted. " } := by
  constructor
  · exact (c10_hit_top_card initApp).1 rfl
  · rw [(c10_hit_top_card w10).2 (by decide)]
    decide

/-- C6 amended: the engine's action methods never consult the Phase, so in a
`RoundOver` state they still act — in particular `hit` with a nonempty shoe
appends the drawn card to the active hand exactly as in `PlayerTurn`; the
advertised immutability after `RoundOver` holds only because the presentation
layer invokes actions solely in their valid Phase. -/
theorem c6_actions_ignore_phase (s : BlackjackApp) (m : String)
    (_hgs : s.game_state = GameState.GameOver m)
    (hdne : s.deck ≠ [])
    (hlt : s.current_hand < s.player_hands.length) :
    ((hit s).player_hands.getD s.current_hand []).length =
      (s.player_hands.getD s.current_hand []).length + 1 := by
  unfold hit
  cases hp : vecPop s.deck with
  | none =>
    rw [vecPop_eq_getLast s.deck hdne] at hp
    exact absurd hp (by simp)
  | some p =>
    obtain ⟨card, deck'⟩ := p
    simp only
    by_cases hb : calculate_hand_value (s.player_hands.getD s.current_hand [] ++ [card]) > 21
    · rw [if_pos hb, stand_hands]
      show ((s.player_hands.set s.current_hand
        (s.player_hands.getD s.current_hand [] ++ [card])).getD s.current_hand []).length = _
      rw [getD_set_self s.player_hands s.current_hand _ [] hlt]
      simp
    · rw [if_neg hb]
      show ((s.player_hands.set s.current_hand
        (s.player_hands.getD s.current_hand [] ++ [card])).getD s.current_hand []).length = _
      rw [getD_set_self s.player_hands s.current_hand _ [] hlt]
      simp

/-- Witness for the amended C6 statement: in the reachable `GameOver` state of
the pump round, `hit` still appends a card to the player's hand. -/
theorem c6_ignore_phase_witness :
    ((hit c6_state).player_hands.getD c6_state.current_hand []).length =
      (c6_state.player_hands.getD c6_state.current_hand []).length + 1 :=
  c6_actions_ignore_phase c6_state "Round Over: Hand 1 Won! "
    (by decide) (by decide) (by decide)

/-- C6 counterexample: a reachable `RoundOver` state that `hit` does change —
so action methods invoked after `RoundOver` are not no-ops. -/
theorem c6_round_over_not_immutable :
    Reachable c6_state ∧ isGameOver c6_state.game_state = true ∧
    hit c6_state ≠ c6_state := by
  refine ⟨?_, by decide, by decide⟩
  have hr : Reachable round1 := Reachable.start pumpDeck round1 (by decide) (by rfl)
  exact Reachable.step Act.standA round1 c6_state hr (by rfl)

/-- C3: the hands/bets length invariant fails on the code — after a round with
a split, starting a new round leaves one player hand but two stored bets,
because `new_round` resets `player_hands` and never truncates `player_bets`. -/
theorem c3_hands_bets_length_mismatch :
    Reachable c3_state ∧
    c3_state.player_hands.length = 1 ∧
    c3_state.player_bets.length = 2 := by
  refine ⟨?_, by decide, by decide⟩
  have hr : Reachable ((new_round c3Deck initApp).getD initApp) :=
    Reachable.start c3Deck _ (by decide) (by rfl)
  exact runLegal_reachable [Act.splitA, Act.standA, Act.standA, Act.renewA pumpDeck]
    ((new_round c3Deck initApp).getD initApp) c3_state hr (by rfl)

/-- C5: in a reachable two-hand `PlayerTurn` state with hand 0 active,
`double_down` whose draw busts hand 0 ends the whole round — the bust-triggered
`stand` advances to hand 1, the `<= 21` re-check then reads hand 1 and calls
`stand` again, so hand 1's turn is skipped entirely. -/
theorem c5_double_down_skips_next_hand :
    Reachable c5_state ∧
    c5_state.game_state = GameState.PlayerTurn ∧
    c5_state.current_hand = 0 ∧
    c5_state.player_hands.length = 2 ∧
    (double_down c5_state).current_hand = 1 ∧
    (double_down c5_state).game_state =
      GameState.GameOver "Round Over: Hand 1 Busted. Hand 2 Push. " := by
  refine ⟨?_, by decide, by decide, by decide, by decide, by decide⟩
  have hr : Reachable ((new_round c5Deck initApp).getD initApp) :=
    Reachable.start c5Deck _ (by decide) (by rfl)
  exact runLegal_reachable [Act.splitA] ((new_round c5Deck initApp).getD initApp)
    c5_state hr (by rfl)

/-- C7: `split` is fatal on a depleted shoe — a phase-legal trace (two won
rounds, then twelve splits and a drain of the shoe) reaches a `PlayerTurn`
state with one card left, a splittable active pair and sufficient funds, where
`split` hits `deck.pop().unwrap()` on the empty shoe and panics (`none` in the
model) instead of refusing. -/
theorem c7_split_panics_on_depleted_shoe :
    Reachable c7_state ∧
    c7_state.game_state = GameState.PlayerTurn ∧
    c7_state.deck.length = 1 ∧
    can_split (c7_state.player_hands.getD c7_state.current_hand []) = true ∧
    c7_state.player_bets.getD c7_state.current_hand 0 ≤ c7_state.total_money ∧
    split c7_state = none := by
  refine ⟨?_, by decide, by decide, by decide, by decide, by decide⟩
  have hr : Reachable round1 := Reachable.start pumpDeck round1 (by decide) (by rfl)
  exact runLegal_reachable killTrace round1 c7_state hr (by rfl)

end Blackjack
